import Mathlib

/-!
Verification of the VirtualWaterfall layout engine and viewport window.

The definitions below are a shallow embedding of the component in
`src/react-waterfall-demo/src/VirtualWaterfall.tsx`:

* `columnCountOf` embeds the `columnCount` memo (lines 132-141);
* `itemWidthOf` embeds the `itemWidth` memo (lines 143-147);
* `getColumnIndex` embeds the `getColumnIndex` scan (lines 173-183);
* `placeItem` / `placeLoop` embed the placement loop body (lines 185-203);
* `layoutEffect` embeds the layout effect (lines 149-207) as a pure state
  transition from the previous `(columnsTop, itemSpaces)` React state;
* `itemRenderList` embeds the windowing memo (lines 209-269).

Numbers are modelled as rationals; JavaScript `Math.floor`/`Math.ceil`
become `Rat.floor` and `ratCeil`.
-/

namespace VirtualWaterfall

/-- Ceiling on rationals, mirroring JavaScript `Math.ceil`. -/
def ratCeil (q : ℚ) : ℤ := -((-q).floor)

/-- Embeds the `columnCount` memo: zero when the content width is falsy;
`Math.floor(cWidth / itemMinWidth)` clamped by `maxColumnCount` only when
`maxColumnCount` is truthy, provided the width fits two minimum-width items;
otherwise `minColumnCount`. -/
def columnCountOf (contentWidth itemMinWidth : ℚ) (maxColumnCount minColumnCount : ℕ) : ℕ :=
  if contentWidth = 0 then 0
  else if itemMinWidth * 2 ≤ contentWidth then
    let count := (contentWidth / itemMinWidth).floor.toNat
    if maxColumnCount ≠ 0 ∧ maxColumnCount < count then maxColumnCount else count
  else minColumnCount

/-- Embeds the `itemWidth` memo: zero when the width is falsy or the column
count is non-positive, else the ceiling of the per-column share of the width
after removing the inter-column gaps. -/
def itemWidthOf (contentWidth : ℚ) (columnCount : ℕ) (gap : ℚ) : ℚ :=
  if contentWidth = 0 ∨ columnCount = 0 then 0
  else (ratCeil ((contentWidth - ((columnCount : ℚ) - 1) * gap) / (columnCount : ℚ)) : ℚ)

/-- Placement record for one item, mirroring `VirtualWaterfallItemSpace`. -/
structure ItemSpace (α : Type) where
  index : ℕ
  item : α
  column : ℕ
  top : ℚ
  left : ℚ
  bottom : ℚ
  height : ℚ
  deriving DecidableEq

/-- The React state held by the component between effect runs: the column
accumulator `columnsTop` and the placement list `itemSpaces`. -/
structure LayoutState (α : Type) where
  columnsTop : List ℚ
  itemSpaces : List (ItemSpace α)
  deriving DecidableEq

/-- The initial React state: both `useState` hooks start empty. -/
def emptyState {α : Type} : LayoutState α := ⟨[], []⟩

/-- Tail of the `getColumnIndex` scan: `m` is the least value seen so far,
`idx` its index, `i` the index of the next element to examine.  The source
updates on a strict `<`, so the first occurrence of the minimum wins. -/
def getColumnIndexGo : List ℚ → ℚ → ℕ → ℕ → ℕ
  | [], _, idx, _ => idx
  | y :: ys, m, idx, i =>
    if y < m then getColumnIndexGo ys y i (i + 1) else getColumnIndexGo ys m idx (i + 1)

/-- Embeds `getColumnIndex`: index of the first minimum of `localColumnsTop`
(the source starts from `min = +Infinity, idx = 0`, so on a non-empty list the
first element is taken immediately and the scan continues from index 1; on an
empty list the initial `idx = 0` is returned). -/
def getColumnIndex : List ℚ → ℕ
  | [] => 0
  | x :: xs => getColumnIndexGo xs x 0 1

/-- One iteration of the placement loop: pick the shortest column, read the
item height, emit the `ItemSpace`, and bump that column's accumulator by
`height + gap`. -/
def placeItem {α : Type} (gap itemWidth : ℚ) (calcItemHeight : α → ℚ → ℚ) (i : ℕ) (a : α)
    (cols : List ℚ) : ItemSpace α × List ℚ :=
  let columnIndex := getColumnIndex cols
  let h := calcItemHeight a itemWidth
  let top := cols.getD columnIndex 0
  ({ index := i, item := a, column := columnIndex, top := top,
     left := (itemWidth + gap) * (columnIndex : ℚ), bottom := top + h, height := h },
   cols.set columnIndex (top + h + gap))

/-- The placement loop `for (let i = start; i < length; i++)`, run over the
remaining items with `i` the absolute index of the head; returns the final
accumulator and the emitted placements in order. -/
def placeLoop {α : Type} (gap itemWidth : ℚ) (calcItemHeight : α → ℚ → ℚ) :
    List α → ℕ → List ℚ → List ℚ × List (ItemSpace α)
  | [], _, cols => (cols, [])
  | a :: rest, i, cols =>
    let p := placeItem gap itemWidth calcItemHeight i a cols
    let r := placeLoop gap itemWidth calcItemHeight rest (i + 1) p.2
    (r.1, p.1 :: r.2)

/-- Embeds the layout effect (lines 149-207) as a pure state transition.
When the column count, the item list or the item width is falsy the state is
reset.  Otherwise `useCache = enableCache && itemSpaces.length && length >
itemSpaces.length` decides between continuing from the cached accumulator over
the appended suffix and a full recomputation from an all-zero accumulator. -/
def layoutEffect {α : Type} (enableCache : Bool) (gap itemWidth : ℚ) (columnCount : ℕ)
    (calcItemHeight : α → ℚ → ℚ) (items : List α) (prev : LayoutState α) : LayoutState α :=
  if columnCount = 0 ∨ items.length = 0 ∨ itemWidth = 0 then
    { columnsTop := List.replicate columnCount 0, itemSpaces := [] }
  else if enableCache = true ∧ prev.itemSpaces.length ≠ 0 ∧
      prev.itemSpaces.length < items.length then
    let start := prev.itemSpaces.length
    let r := placeLoop gap itemWidth calcItemHeight (items.drop start) start prev.columnsTop
    { columnsTop := r.1, itemSpaces := prev.itemSpaces ++ r.2 }
  else
    let r := placeLoop gap itemWidth calcItemHeight items 0 (List.replicate columnCount 0)
    { columnsTop := r.1, itemSpaces := r.2 }

/-- Embeds the `itemRenderList` memo: empty list short-circuits; `virtual`
off or an unmounted content ref return the full placement list; otherwise the
three-way intersection test against the preload-extended visible range.
`contentRectTop` models `content.getBoundingClientRect().top`. -/
def itemRenderList {α : Type} (virtual contentMounted : Bool)
    (scrollTop contentRectTop viewportHeight : ℚ) (preloadScreenCount : ℚ × ℚ)
    (itemSpaces : List (ItemSpace α)) : List (ItemSpace α) :=
  if itemSpaces.length = 0 then []
  else if virtual = false then itemSpaces
  else if contentMounted = false then itemSpaces
  else
    let contentOffsetTop := scrollTop + contentRectTop
    let visibleTop := scrollTop - contentOffsetTop
    let visibleBottom := visibleTop + viewportHeight
    let minLimit := visibleTop - preloadScreenCount.1 * viewportHeight
    let maxLimit := visibleBottom + preloadScreenCount.2 * viewportHeight
    itemSpaces.filter fun v =>
      decide ((minLimit ≤ v.top ∧ v.top ≤ maxLimit) ∨
              (minLimit ≤ v.bottom ∧ v.bottom ≤ maxLimit) ∨
              (v.top < minLimit ∧ maxLimit < v.bottom))

/-- Concrete placement spanning top 800 to bottom 1000, used in the
windowing scenario from the specification. -/
def span800 : ItemSpace ℚ := ⟨0, 0, 0, 800, 0, 1000, 200⟩

/-- Concrete placement spanning top 900 to bottom 1000, used in the
windowing scenario from the specification. -/
def span900 : ItemSpace ℚ := ⟨1, 0, 0, 900, 0, 1000, 100⟩

/-! Specification lemmas for the shortest-column scan. -/

lemma getColumnIndexGo_bound (ys : List ℚ) : ∀ (m : ℚ) (idx i : ℕ),
    getColumnIndexGo ys m idx i = idx ∨
      (i ≤ getColumnIndexGo ys m idx i ∧ getColumnIndexGo ys m idx i < i + ys.length) := by
  induction ys with
  | nil => intro m idx i; left; rfl
  | cons y ys ih =>
    intro m idx i
    simp only [getColumnIndexGo, List.length_cons]
    by_cases h : y < m
    · simp only [if_pos h]
      rcases ih y i (i + 1) with h1 | h1 <;> right <;> omega
    · simp only [if_neg h]
      rcases ih m idx (i + 1) with h1 | h1
      · left; exact h1
      · right; omega

lemma getColumnIndex_lt (cols : List ℚ) (h : cols ≠ []) :
    getColumnIndex cols < cols.length := by
  match cols with
  | [] => exact absurd rfl h
  | x :: xs =>
    simp only [getColumnIndex, List.length_cons]
    rcases getColumnIndexGo_bound xs x 0 1 with h1 | h1 <;> omega

lemma getColumnIndexGo_min (cols : List ℚ) (ys : List ℚ) : ∀ (m : ℚ) (idx i : ℕ),
    cols.drop i = ys → cols.getD idx 0 = m → (∀ j, j < i → m ≤ cols.getD j 0) →
    ∀ j, j < cols.length → cols.getD (getColumnIndexGo ys m idx i) 0 ≤ cols.getD j 0 := by
  induction ys with
  | nil =>
    intro m idx i hdrop hidx hsofar j hj
    have hle : cols.length ≤ i := List.drop_eq_nil_iff.mp hdrop
    simp only [getColumnIndexGo, hidx]
    exact hsofar j (lt_of_lt_of_le hj hle)
  | cons y ys ih =>
    intro m idx i hdrop hidx hsofar
    have hi : i < cols.length := by
      by_contra hge
      have : cols.drop i = [] := List.drop_eq_nil_iff.mpr (le_of_not_lt hge)
      rw [this] at hdrop; exact List.noConfusion hdrop
    have hcons : cols.drop i = cols[i] :: cols.drop (i + 1) :=
      (List.getElem_cons_drop cols i hi).symm
    rw [hcons] at hdrop
    have hy : cols[i] = y := (List.cons.injEq _ _ _ _ ▸ hdrop).1
    have hys : cols.drop (i + 1) = ys := (List.cons.injEq _ _ _ _ ▸ hdrop).2
    have hgetD : cols.getD i 0 = y := by rw [List.getD_eq_getElem cols 0 hi, hy]
    simp only [getColumnIndexGo]
    by_cases hlt : y < m
    · simp only [if_pos hlt]
      refine ih y i (i + 1) hys hgetD ?_
      intro j hj
      rcases Nat.lt_succ_iff_lt_or_eq.mp hj with hj' | hj'
      · exact le_of_lt (lt_of_lt_of_le hlt (hsofar j hj'))
      · rw [hj', hgetD]
    · simp only [if_neg hlt]
      refine ih m idx (i + 1) hys hidx ?_
      intro j hj
      rcases Nat.lt_succ_iff_lt_or_eq.mp hj with hj' | hj'
      · exact hsofar j hj'
      · rw [hj', hgetD]; exact le_of_not_lt hlt

lemma getColumnIndex_min (cols : List ℚ) :
    ∀ j, j < cols.length → cols.getD (getColumnIndex cols) 0 ≤ cols.getD j 0 := by
  match cols with
  | [] => intro j hj; simp at hj
  | x :: xs =>
    simp only [getColumnIndex]
    refine getColumnIndexGo_min (x :: xs) xs x 0 1 rfl rfl ?_
    intro j hj
    interval_cases j
    exact le_refl _

lemma getColumnIndex_min_mem (cols : List ℚ) :
    ∀ y ∈ cols, cols.getD (getColumnIndex cols) 0 ≤ y := by
  intro y hy
  rcases List.mem_iff_getElem.mp hy with ⟨j, hj, hval⟩
  have := getColumnIndex_min cols j hj
  rwa [List.getD_eq_getElem cols 0 hj, hval] at this

lemma getColumnIndex_getD_mem (cols : List ℚ) (h : cols ≠ []) :
    cols.getD (getColumnIndex cols) 0 ∈ cols := by
  have hlt := getColumnIndex_lt cols h
  rw [List.getD_eq_getElem cols 0 hlt]
  exact List.getElem_mem hlt

/-! Basic structural lemmas for the placement loop. -/

lemma placeLoop_fst_length {α : Type} (g iw : ℚ) (f : α → ℚ → ℚ) :
    ∀ (rest : List α) (i : ℕ) (cols : List ℚ),
      (placeLoop g iw f rest i cols).1.length = cols.length := by
  intro rest
  induction rest with
  | nil => intro i cols; rfl
  | cons a rest ih =>
    intro i cols
    simp only [placeLoop, placeItem]
    rw [ih]
    exact List.length_set cols _ _

lemma placeLoop_snd_length {α : Type} (g iw : ℚ) (f : α → ℚ → ℚ) :
    ∀ (rest : List α) (i : ℕ) (cols : List ℚ),
      (placeLoop g iw f rest i cols).2.length = rest.length := by
  intro rest
  induction rest with
  | nil => intro i cols; rfl
  | cons a rest ih =>
    intro i cols
    simp only [placeLoop, List.length_cons]
    rw [ih]

lemma placeLoop_append {α : Type} (g iw : ℚ) (f : α → ℚ → ℚ) :
    ∀ (xs ys : List α) (i : ℕ) (cols : List ℚ),
      placeLoop g iw f (xs ++ ys) i cols =
        ((placeLoop g iw f ys (i + xs.length) (placeLoop g iw f xs i cols).1).1,
         (placeLoop g iw f xs i cols).2 ++
           (placeLoop g iw f ys (i + xs.length) (placeLoop g iw f xs i cols).1).2) := by
  intro xs
  induction xs with
  | nil => intro ys i cols; simp [placeLoop]
  | cons a xs ih =>
    intro ys i cols
    simp only [List.cons_append, placeLoop, List.length_cons, List.append_eq]
    rw [ih ys (i + 1) _]
    have harith : i + 1 + xs.length = i + (xs.length + 1) := by omega
    rw [harith]

/-! Helpers about reading an updated accumulator. -/

lemma getD_set_self (l : List ℚ) (n : ℕ) (b : ℚ) (h : n < l.length) :
    (l.set n b).getD n 0 = b := by
  have hlen : n < (l.set n b).length := by rwa [List.length_set]
  rw [List.getD_eq_getElem _ 0 hlen]
  exact List.getElem_set_self hlen

lemma getD_set_ne (l : List ℚ) (n c : ℕ) (b : ℚ) (h : n ≠ c) :
    (l.set n b).getD c 0 = l.getD c 0 := by
  by_cases hc : c < l.length
  · have hlen : c < (l.set n b).length := by rwa [List.length_set]
    rw [List.getD_eq_getElem _ 0 hlen, List.getD_eq_getElem _ 0 hc]
    exact List.getElem_set_ne h hlen
  · have hc' : l.length ≤ c := le_of_not_lt hc
    rw [List.getD_eq_default _ 0 hc', List.getD_eq_default _ 0 (by rwa [List.length_set])]

/-- Core ordering invariant of the placement loop: every emitted placement
sits at or below the accumulator it started from, heights are carried over
verbatim, and placements that share a column are emitted top-down with a
full gap between consecutive rectangles. -/
lemma placeLoop_invariant {α : Type} (g iw : ℚ) (f : α → ℚ → ℚ) (hg : 0 ≤ g) :
    ∀ (rest : List α) (i : ℕ) (cols : List ℚ), cols ≠ [] →
      (∀ a ∈ rest, 0 ≤ f a iw) →
      (∀ s ∈ (placeLoop g iw f rest i cols).2,
          s.column < cols.length ∧ cols.getD s.column 0 ≤ s.top ∧
          s.bottom = s.top + s.height ∧ 0 ≤ s.height) ∧
      List.Pairwise (fun s t => s.column = t.column → s.bottom ≤ t.top)
        (placeLoop g iw f rest i cols).2 := by
  intro rest
  induction rest with
  | nil => intro i cols _ _; exact ⟨fun s hs => absurd hs (List.not_mem_nil s), List.Pairwise.nil⟩
  | cons a rest ih =>
    intro i cols hne hh
    have ha : 0 ≤ f a iw := hh a (List.mem_cons_self a rest)
    have hci : getColumnIndex cols < cols.length := getColumnIndex_lt cols hne
    set ci := getColumnIndex cols with hci_def
    set m := cols.getD ci 0 with hm_def
    set cols' := cols.set ci (m + f a iw + g) with hcolsSet
    have hlen' : cols'.length = cols.length := List.length_set cols _ _
    have hne' : cols' ≠ [] := by
      intro hnil
      rw [hnil] at hlen'
      exact hne (List.length_eq_zero.mp hlen'.symm)
    have hmono : ∀ c, cols.getD c 0 ≤ cols'.getD c 0 := by
      intro c
      by_cases hc : ci = c
      · subst hc
        rw [hcolsSet, getD_set_self cols ci _ hci]
        linarith
      · rw [hcolsSet, getD_set_ne cols ci c _ hc]
    have hup : cols'.getD ci 0 = m + f a iw + g := getD_set_self cols ci _ hci
    obtain ⟨ihmem, ihpw⟩ := ih (i + 1) cols' hne' (fun b hb => hh b (List.mem_cons_of_mem a hb))
    simp only [placeLoop, placeItem] at *
    constructor
    · intro s hs
      rcases List.mem_cons.mp hs with hs | hs
      · subst hs
        exact ⟨hci, le_refl _, rfl, ha⟩
      · obtain ⟨h1, h2, h3, h4⟩ := ihmem s hs
        exact ⟨hlen' ▸ h1, le_trans (hmono s.column) h2, h3, h4⟩
    · refine List.Pairwise.cons ?_ ihpw
      intro t ht hcol
      obtain ⟨_, h2, _, _⟩ := ihmem t ht
      simp only at hcol
      rw [← hcol] at h2
      have : m + f a iw + g ≤ t.top := le_trans (le_of_eq hup.symm) h2
      simp only
      linarith

/-- Spread invariant of the accumulator: if every pair of accumulator values
is within `H + g` of each other and every remaining height lies in `[0, H]`,
the property persists through the loop. -/
lemma placeLoop_spread {α : Type} (g iw H : ℚ) (f : α → ℚ → ℚ) (hg : 0 ≤ g) :
    ∀ (rest : List α) (i : ℕ) (cols : List ℚ),
      (∀ a ∈ rest, 0 ≤ f a iw ∧ f a iw ≤ H) →
      (∀ x ∈ cols, ∀ y ∈ cols, x - y ≤ H + g) →
      ∀ x ∈ (placeLoop g iw f rest i cols).1, ∀ y ∈ (placeLoop g iw f rest i cols).1,
        x - y ≤ H + g := by
  intro rest
  induction rest with
  | nil => intro i cols _ hinv; exact hinv
  | cons a rest ih =>
    intro i cols hh hinv
    obtain ⟨ha0, haH⟩ := hh a (List.mem_cons_self a rest)
    set ci := getColumnIndex cols with hci_def
    set m := cols.getD ci 0 with hm_def
    simp only [placeLoop, placeItem]
    refine ih (i + 1) _ (fun b hb => hh b (List.mem_cons_of_mem a hb)) ?_
    intro x hx y hy
    rcases List.mem_or_eq_of_mem_set hx with hx' | hx' <;>
      rcases List.mem_or_eq_of_mem_set hy with hy' | hy'
    · exact hinv x hx' y hy'
    · have hne : cols ≠ [] := List.ne_nil_of_mem hx'
      have hmem : m ∈ cols := getColumnIndex_getD_mem cols hne
      have := hinv x hx' m hmem
      rw [hy']
      linarith
    · have hne : cols ≠ [] := List.ne_nil_of_mem hy'
      have hmin : m ≤ y := getColumnIndex_min_mem cols y hy'
      rw [hx']
      linarith
    · rw [hx', hy']
      linarith

/-! Structural lemmas for the layout effect. -/

/-- A run from the initial React state never takes the cache branch: it is a
reset on degenerate inputs and otherwise a full placement from an all-zero
accumulator.  In particular the result does not depend on `enableCache`. -/
lemma layoutEffect_emptyState {α : Type} (ec : Bool) (g iw : ℚ) (cc : ℕ)
    (f : α → ℚ → ℚ) (items : List α) :
    layoutEffect ec g iw cc f items emptyState =
      if cc = 0 ∨ items.length = 0 ∨ iw = 0 then
        ⟨List.replicate cc 0, []⟩
      else
        ⟨(placeLoop g iw f items 0 (List.replicate cc 0)).1,
         (placeLoop g iw f items 0 (List.replicate cc 0)).2⟩ := by
  unfold layoutEffect
  by_cases h : cc = 0 ∨ items.length = 0 ∨ iw = 0
  · rw [if_pos h, if_pos h]
  · rw [if_neg h, if_neg h]
    rw [if_neg (by simp [emptyState])]

/-- A previous state holding no placements never enables the cache branch,
so the run coincides with a run from the initial state. -/
lemma layoutEffect_prev_no_spaces {α : Type} (ec : Bool) (g iw : ℚ) (cc : ℕ)
    (f : α → ℚ → ℚ) (items : List α) (prev : LayoutState α)
    (hprev : prev.itemSpaces = []) :
    layoutEffect ec g iw cc f items prev = layoutEffect ec g iw cc f items emptyState := by
  unfold layoutEffect
  by_cases h : cc = 0 ∨ items.length = 0 ∨ iw = 0
  · rw [if_pos h, if_pos h]
  · rw [if_neg h, if_neg h]
    rw [if_neg (by simp [hprev]), if_neg (by simp [emptyState])]

/-- An incremental run whose previous state came from a run on a prefix of
the same item list, with the same gap, item width and column count, produces
exactly the state of a fresh full run on the whole list. -/
lemma layoutEffect_incremental_eq_fresh {α : Type} (ec : Bool) (g iw : ℚ) (cc : ℕ)
    (f : α → ℚ → ℚ) (base extra : List α) :
    layoutEffect true g iw cc f (base ++ extra) (layoutEffect ec g iw cc f base emptyState) =
      layoutEffect true g iw cc f (base ++ extra) emptyState := by
  by_cases hguard : cc = 0 ∨ (base ++ extra).length = 0 ∨ iw = 0
  · conv_lhs => unfold layoutEffect
    conv_rhs => unfold layoutEffect
    rw [if_pos hguard, if_pos hguard]
  · push_neg at hguard
    obtain ⟨hcc, hlen, hiw⟩ := hguard
    by_cases hbase : base = []
    · refine layoutEffect_prev_no_spaces true g iw cc f (base ++ extra) _ ?_
      subst hbase
      rw [layoutEffect_emptyState]
      rw [if_pos (Or.inr (Or.inl (by simp)))]
    · have hbase' : base.length ≠ 0 := fun h => hbase (List.length_eq_zero.mp h)
      have hfirst : layoutEffect ec g iw cc f base emptyState =
          ⟨(placeLoop g iw f base 0 (List.replicate cc 0)).1,
           (placeLoop g iw f base 0 (List.replicate cc 0)).2⟩ := by
        rw [layoutEffect_emptyState]
        rw [if_neg (by push_neg; exact ⟨hcc, hbase', hiw⟩)]
      rw [hfirst, layoutEffect_emptyState true g iw cc f (base ++ extra)]
      rw [if_neg (by push_neg; exact ⟨hcc, hlen, hiw⟩)]
      unfold layoutEffect
      rw [if_neg (by push_neg; exact ⟨hcc, hlen, hiw⟩)]
      have hsndlen : (placeLoop g iw f base 0 (List.replicate cc 0)).2.length = base.length :=
        placeLoop_snd_length g iw f base 0 _
      by_cases hextra : extra = []
      · subst hextra
        have hnotlt : ¬ ((placeLoop g iw f base 0 (List.replicate cc 0)).2.length <
            (base ++ ([] : List α)).length) := by
          rw [hsndlen]; simp
        rw [if_neg (fun hcontra => hnotlt hcontra.2.2)]
      · have hextra' : extra.length ≠ 0 := fun h => hextra (List.length_eq_zero.mp h)
        have hcond : true = true ∧
            (placeLoop g iw f base 0 (List.replicate cc 0)).2.length ≠ 0 ∧
            (placeLoop g iw f base 0 (List.replicate cc 0)).2.length < (base ++ extra).length := by
          refine ⟨rfl, ?_, ?_⟩
          · rw [hsndlen]; exact hbase'
          · rw [hsndlen]; simp only [List.length_append]; omega
        rw [if_pos hcond]
        rw [placeLoop_append g iw f base extra 0 (List.replicate cc 0)]
        simp only [hsndlen, List.drop_left, Nat.zero_add]

/-- The source-level `Rat.floor` agrees with the mathematical floor. -/
lemma ratFloor_eq_intFloor (q : ℚ) : q.floor = ⌊q⌋ := by
  rw [Rat.floor_def', ← Rat.floor_def]

/-- Computing `Rat.floor` on a rational known to be an integer. -/
lemma ratFloor_ofInt (q : ℚ) (z : ℤ) (h : q = (z : ℚ)) : q.floor = z := by
  rw [ratFloor_eq_intFloor, h, Int.floor_intCast]

/-! Claim theorems. -/

/-- C6: when `virtual` is false the render list equals the full `ItemSpace`
sequence, for every scroll offset, viewport extent, container offset and
preload configuration. -/
theorem virtual_disabled_renders_full_list {α : Type} (contentMounted : Bool)
    (scrollTop contentRectTop viewportHeight : ℚ) (preload : ℚ × ℚ)
    (spaces : List (ItemSpace α)) :
    itemRenderList false contentMounted scrollTop contentRectTop viewportHeight preload spaces
      = spaces := by
  unfold itemRenderList
  by_cases h : spaces.length = 0
  · rw [if_pos h]
    exact (List.length_eq_zero.mp h).symm
  · rw [if_neg h, if_pos rfl]

/-- C9: with `virtual` true but the content ref not yet mounted, the window
query returns the full `ItemSpace` sequence unfiltered, for every scroll
offset and preload configuration. -/
theorem unmounted_container_renders_full_list {α : Type}
    (scrollTop contentRectTop viewportHeight : ℚ) (preload : ℚ × ℚ)
    (spaces : List (ItemSpace α)) :
    itemRenderList true false scrollTop contentRectTop viewportHeight preload spaces
      = spaces := by
  unfold itemRenderList
  by_cases h : spaces.length = 0
  · rw [if_pos h]
    exact (List.length_eq_zero.mp h).symm
  · rw [if_neg h, if_neg (by simp), if_pos rfl]

/-- C8: an empty item list, a zero container width, or a zero column count
(which forces a zero item width) each produce an empty placement set and an
all-zero accumulator of length equal to the column count, not an error. -/
theorem degenerate_inputs_yield_empty_layout {α : Type} (ec : Bool) (g iw W imw : ℚ)
    (cc maxC minC : ℕ) (f : α → ℚ → ℚ) (items : List α) (prev : LayoutState α)
    (h : items = [] ∨ cc = 0 ∨ iw = 0) :
    layoutEffect ec g iw cc f items prev = ⟨List.replicate cc 0, []⟩ ∧
      columnCountOf 0 imw maxC minC = 0 ∧ itemWidthOf 0 cc g = 0 ∧ itemWidthOf W 0 g = 0 := by
  have hguard : cc = 0 ∨ items.length = 0 ∨ iw = 0 := by
    rcases h with h | h | h
    · exact Or.inr (Or.inl (by simp [h]))
    · exact Or.inl h
    · exact Or.inr (Or.inr h)
  refine ⟨?_, ?_, ?_, ?_⟩
  · unfold layoutEffect
    rw [if_pos hguard]
  · unfold columnCountOf
    rw [if_pos rfl]
  · unfold itemWidthOf
    rw [if_pos (Or.inl rfl)]
  · unfold itemWidthOf
    rw [if_pos (Or.inr rfl)]

/-- Witness for C8 at an empty item list. -/
theorem degenerate_inputs_yield_empty_layout_witness :
    (([] : List ℚ) = [] ∨ 3 = 0 ∨ (220 : ℚ) = 0) ∧
      (layoutEffect true 15 220 3 (fun (h : ℚ) _ => h) [] emptyState =
          ⟨List.replicate 3 0, []⟩ ∧
        columnCountOf 0 220 10 2 = 0 ∧ itemWidthOf 0 3 15 = 0 ∧ itemWidthOf 300 0 15 = 0) :=
  ⟨Or.inl rfl,
   degenerate_inputs_yield_empty_layout true 15 220 300 220 3 10 2
     (fun (h : ℚ) _ => h) [] emptyState (Or.inl rfl)⟩

/-- C10: with `maxColumnCount = 0` the upper clamp is skipped: for every
width at least twice the minimum item width, the column count is the floor
of width over minimum item width, with no upper bound. -/
theorem maxColumnCount_zero_unclamped (W imw : ℚ) (minC : ℕ)
    (himw : 0 < imw) (hW : imw * 2 ≤ W) :
    columnCountOf W imw 0 minC = (W / imw).floor.toNat := by
  have hW0 : W ≠ 0 := ne_of_gt (lt_of_lt_of_le (by linarith) hW)
  unfold columnCountOf
  rw [if_neg hW0, if_pos hW, if_neg (by simp)]

/-- Witness for C10: a 5000-wide container with 220-wide items yields 22
columns, well beyond the default clamp of 10. -/
theorem maxColumnCount_zero_unclamped_witness :
    (0 : ℚ) < 220 ∧ (220 : ℚ) * 2 ≤ 5000 ∧
      columnCountOf 5000 220 0 2 = (((5000 : ℚ) / 220).floor.toNat) :=
  ⟨by norm_num, by norm_num,
   maxColumnCount_zero_unclamped 5000 220 2 (by norm_num) (by norm_num)⟩

/-- C7 fails as stated: at width 440, minimum item width 220 and
`maxColumnCount = 0`, the code returns 2 columns while clamping the floor
by `maxColumnCount` would return 0. -/
theorem columnCount_clamp_counterexample :
    (0 : ℚ) < 440 ∧ (220 : ℚ) * 2 ≤ 440 ∧
      columnCountOf 440 220 0 2 ≠ min (((440 : ℚ) / 220).floor.toNat) 0 := by
  refine ⟨by norm_num, by norm_num, ?_⟩
  have h2 : (((440 : ℚ)) / 220).floor = (2 : ℤ) := ratFloor_ofInt _ 2 (by norm_num)
  have hcc : columnCountOf 440 220 0 2 = 2 := by
    simp only [columnCountOf]
    rw [if_neg (by norm_num : ¬(440 : ℚ) = 0),
      if_pos (by norm_num : (220 : ℚ) * 2 ≤ 440), h2]
    norm_num
    rfl
  rw [hcc, h2]
  norm_num

/-- C7 (amended): for a positive width and a positive `maxColumnCount`, if
the width is at least twice the minimum item width the column count is the
floor of width over minimum item width clamped above by `maxColumnCount`;
otherwise it is `minColumnCount`. -/
theorem columnCount_formula (W imw : ℚ) (maxC minC : ℕ)
    (hW : 0 < W) (hmax : maxC ≠ 0) :
    (imw * 2 ≤ W → columnCountOf W imw maxC minC = min ((W / imw).floor.toNat) maxC) ∧
    (W < imw * 2 → columnCountOf W imw maxC minC = minC) := by
  constructor
  · intro hge
    unfold columnCountOf
    rw [if_neg (ne_of_gt hW), if_pos hge]
    by_cases hclamp : maxC < (W / imw).floor.toNat
    · rw [if_pos ⟨hmax, hclamp⟩]
      omega
    · rw [if_neg (fun hc => hclamp hc.2)]
      omega
  · intro hlt
    unfold columnCountOf
    rw [if_neg (ne_of_gt hW), if_neg (not_le.mpr hlt)]

/-- Witness for the amended C7 on both sides of the width threshold. -/
theorem columnCount_formula_witness :
    ((0 : ℚ) < 500 ∧ (10 : ℕ) ≠ 0 ∧
      columnCountOf 500 220 10 2 = min (((500 : ℚ) / 220).floor.toNat) 10) ∧
    ((0 : ℚ) < 300 ∧ (300 : ℚ) < 220 * 2 ∧ columnCountOf 300 220 10 2 = 2) :=
  ⟨⟨by norm_num, by norm_num,
    (columnCount_formula 500 220 10 2 (by norm_num) (by norm_num)).1 (by norm_num)⟩,
   ⟨by norm_num, by norm_num,
    (columnCount_formula 300 220 10 2 (by norm_num) (by norm_num)).2 (by norm_num)⟩⟩

/-- C3 fails as stated: one item of height 10 placed over two columns with
the default gap 15 leaves accumulator `[25, 0]`, whose spread 25 exceeds the
maximum item height 10. -/
theorem greedy_spread_counterexample :
    ¬ (∀ x ∈ (layoutEffect true 15 220 2 (fun (h : ℚ) _ => h) [10] emptyState).columnsTop,
        ∀ y ∈ (layoutEffect true 15 220 2 (fun (h : ℚ) _ => h) [10] emptyState).columnsTop,
          x - y ≤ 10) := by
  have hcols : (layoutEffect true 15 220 2 (fun (h : ℚ) _ => h) [10] emptyState).columnsTop
      = [25, 0] := by
    norm_num [layoutEffect, emptyState, placeLoop, placeItem, getColumnIndex, getColumnIndexGo,
      List.replicate]
  intro hall
  have h25 : (25 : ℚ) ∈ (layoutEffect true 15 220 2 (fun (h : ℚ) _ => h) [10]
      emptyState).columnsTop := by
    rw [hcols]; exact List.mem_cons_self _ _
  have h0 : (0 : ℚ) ∈ (layoutEffect true 15 220 2 (fun (h : ℚ) _ => h) [10]
      emptyState).columnsTop := by
    rw [hcols]; exact List.mem_cons_of_mem _ (List.mem_cons_self _ _)
  have := hall 25 h25 0 h0
  norm_num at this

/-- C3 (amended): with non-negative gap and item heights bounded by `H`,
after the loop places every item starting from an all-zero accumulator, any
two accumulator values differ by at most `H` plus the gap. -/
theorem greedy_spread_bound {α : Type} (ec : Bool) (g iw H : ℚ) (cc : ℕ)
    (f : α → ℚ → ℚ) (items : List α)
    (hg : 0 ≤ g) (hH : 0 ≤ H) (hh : ∀ a ∈ items, 0 ≤ f a iw ∧ f a iw ≤ H) :
    ∀ x ∈ (layoutEffect ec g iw cc f items emptyState).columnsTop,
      ∀ y ∈ (layoutEffect ec g iw cc f items emptyState).columnsTop, x - y ≤ H + g := by
  rw [layoutEffect_emptyState]
  by_cases hcase : cc = 0 ∨ items.length = 0 ∨ iw = 0
  · rw [if_pos hcase]
    intro x hx y hy
    have hx0 : x = 0 := List.eq_of_mem_replicate hx
    have hy0 : y = 0 := List.eq_of_mem_replicate hy
    rw [hx0, hy0]
    linarith
  · rw [if_neg hcase]
    refine placeLoop_spread g iw H f hg items 0 (List.replicate cc 0) hh ?_
    intro x hx y hy
    have hx0 : x = 0 := List.eq_of_mem_replicate hx
    have hy0 : y = 0 := List.eq_of_mem_replicate hy
    rw [hx0, hy0]
    linarith

/-- Witness for the amended C3 at two items of heights 200 and 100 over
three columns with gap 15. -/
theorem greedy_spread_bound_witness :
    (0 : ℚ) ≤ 15 ∧ (0 : ℚ) ≤ 200 ∧
      (∀ a ∈ [(200 : ℚ), 100], 0 ≤ (fun (h : ℚ) _ => h) a 220 ∧
        (fun (h : ℚ) _ => h) a 220 ≤ 200) ∧
      (∀ x ∈ (layoutEffect true 15 220 3 (fun (h : ℚ) _ => h) [200, 100]
          emptyState).columnsTop,
        ∀ y ∈ (layoutEffect true 15 220 3 (fun (h : ℚ) _ => h) [200, 100]
            emptyState).columnsTop, x - y ≤ 200 + 15) :=
  ⟨by norm_num, by norm_num, by decide,
   greedy_spread_bound true 15 220 200 3 (fun (h : ℚ) _ => h) [200, 100]
     (by norm_num) (by norm_num) (by decide)⟩

/-- C5: in a run of the layout engine with non-negative heights and gap, two
placements in the same column never overlap as half-open vertical intervals,
and bottoms are non-decreasing in output order within a column. -/
theorem no_overlap_within_column {α : Type} (ec : Bool) (g iw : ℚ) (cc : ℕ)
    (f : α → ℚ → ℚ) (items : List α)
    (hg : 0 ≤ g) (hh : ∀ a ∈ items, 0 ≤ f a iw) :
    List.Pairwise
      (fun s t => s.column = t.column →
        (∀ x : ℚ, ¬ (s.top ≤ x ∧ x < s.bottom ∧ t.top ≤ x ∧ x < t.bottom)) ∧
        s.bottom ≤ t.bottom)
      (layoutEffect ec g iw cc f items emptyState).itemSpaces := by
  rw [layoutEffect_emptyState]
  by_cases hcase : cc = 0 ∨ items.length = 0 ∨ iw = 0
  · rw [if_pos hcase]
    exact List.Pairwise.nil
  · rw [if_neg hcase]
    push_neg at hcase
    have hne : (List.replicate cc (0 : ℚ)) ≠ [] := by
      have : (List.replicate cc (0 : ℚ)).length = cc := List.length_replicate cc 0
      intro hnil
      rw [hnil] at this
      exact hcase.1 this.symm
    obtain ⟨hmem, hpw⟩ := placeLoop_invariant g iw f hg items 0 (List.replicate cc 0) hne hh
    dsimp only
    refine hpw.imp_of_mem ?_
    intro s t hs ht hrel hcol
    obtain ⟨-, -, hsb, hsh⟩ := hmem s hs
    obtain ⟨-, -, htb, hth⟩ := hmem t ht
    have hbt : s.bottom ≤ t.top := hrel hcol
    constructor
    · rintro x ⟨-, hx2, hx3, -⟩
      exact absurd (lt_of_lt_of_le hx2 (le_trans hbt hx3)) (lt_irrefl x)
    · rw [htb]
      linarith

/-- Witness for C5 at three items over two columns, default gap. -/
theorem no_overlap_within_column_witness :
    (0 : ℚ) ≤ 15 ∧ (∀ a ∈ [(100 : ℚ), 50, 30], 0 ≤ (fun (h : ℚ) _ => h) a 220) ∧
      List.Pairwise
        (fun s t => s.column = t.column →
          (∀ x : ℚ, ¬ (s.top ≤ x ∧ x < s.bottom ∧ t.top ≤ x ∧ x < t.bottom)) ∧
          s.bottom ≤ t.bottom)
        (layoutEffect true 15 220 2 (fun (h : ℚ) _ => h) [100, 50, 30]
          emptyState).itemSpaces :=
  ⟨by norm_num, by decide,
   no_overlap_within_column true 15 220 2 (fun (h : ℚ) _ => h) [100, 50, 30]
     (by norm_num) (by decide)⟩

/-- C4: with virtualization on and the container mounted, a placement is in
the render list iff it is a placement and its rectangle meets the preload
window, via the three-way test on the bounds derived from the scroll offset,
the container's document offset, and the viewport extent; in the concrete
scenario with viewport 900, scroll 0, container offset 72 and no preload the
bounds are -72 and 828, the 800-1000 item is kept and the 900-1000 item is
dropped. -/
theorem windowing_membership {α : Type} (scrollTop containerOffset viewportHeight tp bp : ℚ)
    (spaces : List (ItemSpace α)) (v : ItemSpace α) :
    (v ∈ itemRenderList true true scrollTop (containerOffset - scrollTop) viewportHeight
        (tp, bp) spaces ↔
      v ∈ spaces ∧
        ((scrollTop - containerOffset - tp * viewportHeight ≤ v.top ∧
            v.top ≤ scrollTop - containerOffset + viewportHeight + bp * viewportHeight) ∨
         (scrollTop - containerOffset - tp * viewportHeight ≤ v.bottom ∧
            v.bottom ≤ scrollTop - containerOffset + viewportHeight + bp * viewportHeight) ∨
         (v.top < scrollTop - containerOffset - tp * viewportHeight ∧
            scrollTop - containerOffset + viewportHeight + bp * viewportHeight < v.bottom))) ∧
    itemRenderList true true 0 72 900 (0, 0) [span800, span900] = [span800] := by
  constructor
  · unfold itemRenderList
    by_cases hlen : spaces.length = 0
    · rw [if_pos hlen]
      have hnil : spaces = [] := List.length_eq_zero.mp hlen
      subst hnil
      simp
    · rw [if_neg hlen, if_neg (by simp), if_neg (by simp)]
      rw [List.mem_filter]
      simp only [decide_eq_true_eq]
      constructor
      · rintro ⟨hv, h1 | h2 | h3⟩
        · exact ⟨hv, Or.inl ⟨by linarith [h1.1], by linarith [h1.2]⟩⟩
        · exact ⟨hv, Or.inr (Or.inl ⟨by linarith [h2.1], by linarith [h2.2]⟩)⟩
        · exact ⟨hv, Or.inr (Or.inr ⟨by linarith [h3.1], by linarith [h3.2]⟩)⟩
      · rintro ⟨hv, h1 | h2 | h3⟩
        · exact ⟨hv, Or.inl ⟨by linarith [h1.1], by linarith [h1.2]⟩⟩
        · exact ⟨hv, Or.inr (Or.inl ⟨by linarith [h2.1], by linarith [h2.2]⟩)⟩
        · exact ⟨hv, Or.inr (Or.inr ⟨by linarith [h3.1], by linarith [h3.2]⟩)⟩
  · norm_num [itemRenderList, span800, span900, List.filter]

/-- C2: after a first run on a prefix, an incremental cached run on the
extended list keeps the prefix placements exactly as the first run produced
them, and places the appended suffix exactly as a fresh full run on the
whole list would. -/
theorem cache_append_matches_fresh_run {α : Type} (ec : Bool) (g iw : ℚ) (cc : ℕ)
    (f : α → ℚ → ℚ) (base extra : List α) :
    (layoutEffect true g iw cc f (base ++ extra)
        (layoutEffect ec g iw cc f base emptyState)).itemSpaces.take base.length =
      (layoutEffect ec g iw cc f base emptyState).itemSpaces ∧
    (layoutEffect true g iw cc f (base ++ extra)
        (layoutEffect ec g iw cc f base emptyState)).itemSpaces.drop base.length =
      (layoutEffect ec g iw cc f (base ++ extra) emptyState).itemSpaces.drop base.length := by
  have hflag : layoutEffect true g iw cc f (base ++ extra) emptyState =
      layoutEffect ec g iw cc f (base ++ extra) emptyState := by
    rw [layoutEffect_emptyState, layoutEffect_emptyState]
  rw [layoutEffect_incremental_eq_fresh ec g iw cc f base extra, hflag]
  refine ⟨?_, rfl⟩
  rw [layoutEffect_emptyState ec g iw cc f (base ++ extra),
    layoutEffect_emptyState ec g iw cc f base]
  by_cases hguard : cc = 0 ∨ (base ++ extra).length = 0 ∨ iw = 0
  · have hguard' : cc = 0 ∨ base.length = 0 ∨ iw = 0 := by
      rcases hguard with h | h | h
      · exact Or.inl h
      · simp only [List.length_append] at h
        exact Or.inr (Or.inl (by omega))
      · exact Or.inr (Or.inr h)
    rw [if_pos hguard, if_pos hguard']
    simp
  · push_neg at hguard
    obtain ⟨hcc, hlen, hiw⟩ := hguard
    rw [if_neg (by push_neg; exact ⟨hcc, hlen, hiw⟩)]
    by_cases hbase : base.length = 0
    · rw [if_pos (Or.inr (Or.inl hbase))]
      rw [hbase]
      simp
    · rw [if_neg (by push_neg; exact ⟨hcc, hbase, hiw⟩)]
      dsimp only
      rw [placeLoop_append g iw f base extra 0 (List.replicate cc 0)]
      have hsndlen : (placeLoop g iw f base 0 (List.replicate cc 0)).2.length = base.length :=
        placeLoop_snd_length g iw f base 0 _
      rw [← hsndlen, List.take_left]

/-- C1 fails as stated: starting from the state of a run with one column of
width 100, a run with two columns of width 50 on a grown list still reuses
the cached accumulator and placements instead of recomputing from an
all-zero accumulator over the entire list, so a column-count (and width)
change does not force a full recomputation. -/
theorem useCache_param_change_counterexample :
    layoutEffect true 0 50 2 (fun (h : ℚ) _ => h) [10, 10]
        (layoutEffect true 0 100 1 (fun (h : ℚ) _ => h) [10] emptyState) ≠
      layoutEffect true 0 50 2 (fun (h : ℚ) _ => h) [10, 10] emptyState := by
  norm_num [layoutEffect, emptyState, placeLoop, placeItem, getColumnIndex, getColumnIndexGo,
    List.replicate, ItemSpace.mk.injEq, LayoutState.mk.injEq]

/-- C1 (amended): given non-degenerate inputs, the engine reuses the cache
exactly when caching is enabled and the previous item count is non-zero and
less than the new item count — the layout parameters are not consulted.  On
reuse it keeps every previously computed placement and continues from the
cached accumulator over only the appended indices; whenever the cache
condition fails the run equals a full recomputation from the initial state,
with an all-zero accumulator over the entire list. -/
theorem useCache_reuse_condition {α : Type} (ec : Bool) (g iw : ℚ) (cc : ℕ)
    (f : α → ℚ → ℚ) (items : List α) (prev : LayoutState α)
    (hcc : cc ≠ 0) (hlen : items.length ≠ 0) (hiw : iw ≠ 0) :
    ((ec = true ∧ prev.itemSpaces.length ≠ 0 ∧ prev.itemSpaces.length < items.length) →
      (layoutEffect ec g iw cc f items prev).itemSpaces.take prev.itemSpaces.length =
          prev.itemSpaces ∧
        (layoutEffect ec g iw cc f items prev).itemSpaces.drop prev.itemSpaces.length =
          (placeLoop g iw f (items.drop prev.itemSpaces.length) prev.itemSpaces.length
            prev.columnsTop).2 ∧
        (layoutEffect ec g iw cc f items prev).columnsTop =
          (placeLoop g iw f (items.drop prev.itemSpaces.length) prev.itemSpaces.length
            prev.columnsTop).1) ∧
    (¬ (ec = true ∧ prev.itemSpaces.length ≠ 0 ∧ prev.itemSpaces.length < items.length) →
      layoutEffect ec g iw cc f items prev = layoutEffect ec g iw cc f items emptyState) := by
  have hguard : ¬ (cc = 0 ∨ items.length = 0 ∨ iw = 0) := by
    rintro (h | h | h)
    exacts [hcc h, hlen h, hiw h]
  constructor
  · intro hcond
    unfold layoutEffect
    rw [if_neg hguard, if_pos hcond]
    dsimp only
    refine ⟨?_, ?_, rfl⟩
    · rw [List.take_left]
    · rw [List.drop_left]
  · intro hcond
    rw [layoutEffect_emptyState, if_neg hguard]
    unfold layoutEffect
    rw [if_neg hguard, if_neg hcond]

/-- Witness for the amended C1: a cached run on a grown list keeps the
single previously placed item untouched. -/
theorem useCache_reuse_condition_witness :
    (layoutEffect true 0 100 1 (fun (h : ℚ) _ => h) [10, 20]
        (⟨[10], [⟨0, 10, 0, 0, 0, 10, 10⟩]⟩ : LayoutState ℚ)).itemSpaces.take 1 =
      [⟨0, 10, 0, 0, 0, 10, 10⟩] := by
  have h := (useCache_reuse_condition true 0 100 1 (fun (h : ℚ) _ => h) [10, 20]
    (⟨[10], [⟨0, 10, 0, 0, 0, 10, 10⟩]⟩ : LayoutState ℚ)
    (by decide) (by decide) (by norm_num)).1 ⟨rfl, by decide, by decide⟩
  exact h.1

end VirtualWaterfall
